import Mathlib

/-!
Shallow embedding of the p2p trust-and-replication engine
(storage, crypto envelope, whitelist, admission gate, connection
registry, key-distribution manager), verified against the
natural-language specification.

Conventions of the embedding:
* SQLite tables become association lists with the primary key as the
  lookup key (`kv_store` in `src/storage.rs`, `peer_whitelist` in
  `src/whitelist.rs`); `INSERT OR REPLACE` becomes an in-place upsert.
* `chrono` timestamps are modelled as integers (`Int`, seconds since
  epoch), matching the code's comparisons of `DateTime` values and of
  `timestamp.timestamp()` seconds.  `std::time::Instant` values in the
  rate limiter are modelled as integer milliseconds so that sub-second
  spacing is expressible (60 s = 60000, 1 s = 1000).
* Peer ids (`libp2p::PeerId`) are modelled as `String`, matching their
  stringified storage form; parsing a stored id succeeds.
* Fallible Rust functions (`anyhow::Result`) that the claims exercise
  only through their pure outcome are total; operations whose error
  path matters return `Bool`/`Except` results.
-/

namespace P2P

/-! ### Key-value store (`src/storage.rs`) -/

/-- One row of the `kv_store` table: `(key, value, timestamp)`. -/
structure KVRow where
  key : String
  value : String
  timestamp : Int
deriving DecidableEq

/-- The `kv_store` table, keyed by `key` (PRIMARY KEY). -/
def Store := List KVRow

/-- `SELECT value, timestamp FROM kv_store WHERE key = ?1` (first match;
keys are unique in a well-formed store). -/
def lookupKV : Store → String → Option (String × Int)
  | [], _ => none
  | r :: rs, k => if r.key = k then some (r.value, r.timestamp) else lookupKV rs k

/-- `INSERT OR REPLACE INTO kv_store ... VALUES (k, v, t)`. -/
def replaceKV : Store → String → String → Int → Store
  | [], k, v, t => [⟨k, v, t⟩]
  | r :: rs, k, v, t => if r.key = k then ⟨k, v, t⟩ :: rs else r :: replaceKV rs k v t

/-- `DELETE FROM kv_store WHERE key = ?1`. -/
def deleteKV : Store → String → Store
  | [], _ => []
  | r :: rs, k => if r.key = k then deleteKV rs k else r :: deleteKV rs k

/-- `Storage::put_with_timestamp`: read the stored timestamp; if an
entry exists with `existing > timestamp`, return unchanged; otherwise
`INSERT OR REPLACE` the row. -/
def put_with_timestamp (s : Store) (key value : String) (timestamp : Int) : Store :=
  match lookupKV s key with
  | some (_, existing) =>
      if existing > timestamp then s else replaceKV s key value timestamp
  | none => replaceKV s key value timestamp

/-- `Storage::get`: `SELECT value FROM kv_store WHERE key = ?1`. -/
def get (s : Store) (key : String) : Option String :=
  (lookupKV s key).map (·.1)

/-- `Storage::delete_with_timestamp`: read the stored timestamp; if an
entry exists with `existing < timestamp`, delete the row; otherwise
leave the store unchanged. -/
def delete_with_timestamp (s : Store) (key : String) (timestamp : Int) : Store :=
  match lookupKV s key with
  | some (_, existing) =>
      if existing < timestamp then deleteKV s key else s
  | none => s

lemma lookupKV_replaceKV_self (s : Store) (k v : String) (t : Int) :
    lookupKV (replaceKV s k v t) k = some (v, t) := by
  induction s with
  | nil => simp [replaceKV, lookupKV]
  | cons r rs ih =>
      by_cases h : r.key = k
      · simp [replaceKV, lookupKV, h]
      · simp [replaceKV, lookupKV, h, ih]

lemma lookupKV_deleteKV_self (s : Store) (k : String) :
    lookupKV (deleteKV s k) k = none := by
  induction s with
  | nil => simp [deleteKV, lookupKV]
  | cons r rs ih =>
      by_cases h : r.key = k
      · simp [deleteKV, h, ih]
      · simp [deleteKV, lookupKV, h, ih]

/-- **C1.** `put_with_timestamp(k, v, t)` inserts `(k, v, t)` when no
entry for `k` exists; when an entry with stored timestamp `t0` exists it
is a no-op if `t0 > t` and otherwise overwrites both value and
timestamp; and the seed scenario: `put("x","a",100)` then
`put("x","b",50)` leaves `get("x") = "a"`. -/
theorem put_with_timestamp_lww (s : Store) (k v : String) (t : Int) :
    (lookupKV s k = none → put_with_timestamp s k v t = replaceKV s k v t ∧
      get (put_with_timestamp s k v t) k = some v) ∧
    (∀ v0 t0, lookupKV s k = some (v0, t0) → t0 > t →
      put_with_timestamp s k v t = s) ∧
    (∀ v0 t0, lookupKV s k = some (v0, t0) → ¬ t0 > t →
      lookupKV (put_with_timestamp s k v t) k = some (v, t)) ∧
    get (put_with_timestamp (put_with_timestamp [] "x" "a" 100) "x" "b" 50) "x"
      = some "a" := by
  refine ⟨?_, ?_, ?_, by decide⟩
  · intro h
    simp [put_with_timestamp, h, get, lookupKV_replaceKV_self]
  · intro v0 t0 h ht
    simp [put_with_timestamp, h, ht]
  · intro v0 t0 h ht
    simp [put_with_timestamp, h, ht, lookupKV_replaceKV_self]

/-- Witness for C1 at concrete inputs. -/
theorem put_with_timestamp_lww_witness :
    lookupKV [⟨"x", "a", (100 : Int)⟩] "x" = some ("a", 100) ∧
    put_with_timestamp [⟨"x", "a", (100 : Int)⟩] "x" "b" 50 = [⟨"x", "a", 100⟩] :=
  ⟨by decide, (put_with_timestamp_lww [⟨"x", "a", 100⟩] "x" "b" 50).2.1 "a" 100
    (by decide) (by decide)⟩

/-- **C2.** `delete_with_timestamp(k, t)` removes the entry for `k` iff
an entry exists whose stored timestamp `t0` satisfies `t0 < t` strictly;
otherwise it is a no-op; consequently a put followed by a delete at the
same timestamp leaves the put's value stored. -/
theorem delete_with_timestamp_lww (s : Store) (k : String) (t : Int) :
    (∀ v0 t0, lookupKV s k = some (v0, t0) → t0 < t →
      delete_with_timestamp s k t = deleteKV s k ∧
        lookupKV (delete_with_timestamp s k t) k = none) ∧
    (∀ v0 t0, lookupKV s k = some (v0, t0) → ¬ t0 < t →
      delete_with_timestamp s k t = s) ∧
    (lookupKV s k = none → delete_with_timestamp s k t = s) ∧
    get (delete_with_timestamp (put_with_timestamp [] "x" "a" 100) "x" 100) "x"
      = some "a" := by
  refine ⟨?_, ?_, ?_, by decide⟩
  · intro v0 t0 h ht
    simp [delete_with_timestamp, h, ht, lookupKV_deleteKV_self]
  · intro v0 t0 h ht
    simp [delete_with_timestamp, h, ht]
  · intro h
    simp [delete_with_timestamp, h]

/-- Witness for C2 at concrete inputs. -/
theorem delete_with_timestamp_lww_witness :
    lookupKV [⟨"x", "a", (100 : Int)⟩] "x" = some ("a", 100) ∧
    delete_with_timestamp [⟨"x", "a", (100 : Int)⟩] "x" 101 = [] :=
  ⟨by decide, ((delete_with_timestamp_lww [⟨"x", "a", 100⟩] "x" 101).1 "a" 100
    (by decide) (by decide)).1⟩

/-! ### Signed envelope (`src/crypto.rs`)

The cryptographic primitives live in external crates (`bincode`,
`sha2`, `libp2p::identity`); they are modelled as a signature scheme
bundle whose only assumed law is Ed25519 correctness (a signature
produced by a keypair verifies under that keypair's public key). -/

/-- External primitives used by `SignedData`: `bincode::serialize`,
`Sha256::digest`, `Keypair::public`, `PublicKey::to_peer_id`,
`Keypair::sign`, `PublicKey::verify`. -/
structure SigScheme (α KP PK : Type) where
  serialize : α → List Nat
  sha256 : List Nat → List Nat
  pub : KP → PK
  toPeerId : PK → String
  sign : KP → List Nat → List Nat
  verify : PK → List Nat → List Nat → Bool
  verify_sign : ∀ kp h, verify (pub kp) h (sign kp h) = true

/-- `SignedData<T> { data, signature, signer }`. -/
structure SignedData (α : Type) where
  data : α
  signature : List Nat
  signer : String

/-- `SignedData::new`: serialize, hash, sign the hash, set `signer` to
the keypair's derived peer id. -/
def SignedData.new {α KP PK : Type} (S : SigScheme α KP PK) (data : α) (kp : KP) :
    SignedData α :=
  { data := data
    signature := S.sign kp (S.sha256 (S.serialize data))
    signer := S.toPeerId (S.pub kp) }

/-- `SignedData::verify_with_public_key`: recompute the hash, compare
the declared `signer` against the key's derived peer id first, then
cryptographically verify the signature. -/
def SignedData.verify_with_public_key {α KP PK : Type} (S : SigScheme α KP PK)
    (sd : SignedData α) (pk : PK) : Bool :=
  if sd.signer ≠ S.toPeerId pk then false
  else S.verify pk (S.sha256 (S.serialize sd.data)) sd.signature

/-- **C3.** `verify_with_public_key(envelope, pk)` returns true iff the
declared signer equals the peer id derived from `pk` and `pk` validates
the signature over `SHA-256(serialize(data))` (the signer comparison
short-circuits the cryptographic check); and sign-then-verify with the
signing keypair's public key is true for every payload. -/
theorem verify_with_public_key_iff {α KP PK : Type} (S : SigScheme α KP PK) :
    (∀ (sd : SignedData α) (pk : PK),
      sd.verify_with_public_key S pk = true ↔
        (sd.signer = S.toPeerId pk ∧
         S.verify pk (S.sha256 (S.serialize sd.data)) sd.signature = true)) ∧
    (∀ (data : α) (kp : KP),
      (SignedData.new S data kp).verify_with_public_key S (S.pub kp) = true) := by
  constructor
  · intro sd pk
    by_cases h : sd.signer = S.toPeerId pk
    · simp [SignedData.verify_with_public_key, h]
    · simp [SignedData.verify_with_public_key, h]
  · intro data kp
    simp [SignedData.verify_with_public_key, SignedData.new, S.verify_sign]

/-- A concrete scheme satisfying the Ed25519 correctness law, used to
witness C3. -/
def natScheme : SigScheme Nat Nat Nat where
  serialize n := [n]
  sha256 l := l
  pub k := k
  toPeerId k := toString k
  sign kp h := kp :: h
  verify pk h s := decide (s = pk :: h)
  verify_sign := by intro kp h; simp

/-- Witness for C3: sign-then-verify at a concrete payload and keypair. -/
theorem verify_with_public_key_iff_witness :
    (SignedData.new natScheme 5 7).verify_with_public_key natScheme
      (natScheme.pub 7) = true :=
  (verify_with_public_key_iff natScheme).2 5 7

/-! ### Peer whitelist (`src/whitelist.rs`)

The `peer_whitelist` table is an association list of rows keyed by
`peer_id`; the in-memory positive cache (`HashSet<PeerId>`) is a
duplicate-free list of peer ids.  `is_whitelisted` is effectful in the
code (it evicts an expired cached row via `remove_peer` and inserts
newly confirmed ids into the cache), so the model returns the new state
alongside the boolean. -/

/-- One row of `peer_whitelist`.  `added_at`/`expires_at` are RFC3339
instants, modelled as integer seconds; `public_key` is the
protobuf-encoded key bytes. -/
structure WEntry where
  peer_id : String
  name : Option String
  public_key : Option (List Nat)
  added_at : Int
  expires_at : Option Int
  recommended_by : List String
  recommendation_count : Nat
deriving DecidableEq

/-- Whitelist state: persistent rows plus the in-memory cache. -/
structure WState where
  rows : List WEntry
  cache : List String
deriving DecidableEq

/-- `SELECT ... FROM peer_whitelist WHERE peer_id = ?1` (first match;
`peer_id` is the primary key). -/
def findRow : List WEntry → String → Option WEntry
  | [], _ => none
  | e :: es, p => if e.peer_id = p then some e else findRow es p

/-- `DELETE FROM peer_whitelist WHERE peer_id = ?1`. -/
def removeRows : List WEntry → String → List WEntry
  | [], _ => []
  | e :: es, p => if e.peer_id = p then removeRows es p else e :: removeRows es p

/-- `INSERT OR REPLACE INTO peer_whitelist ...`: replace the row with
the same primary key in place, or append a fresh row. -/
def upsertRow : List WEntry → WEntry → List WEntry
  | [], e => [e]
  | x :: xs, e => if x.peer_id = e.peer_id then e :: xs else x :: upsertRow xs e

/-- `HashSet::insert` on the cache. -/
def insertCache (c : List String) (p : String) : List String :=
  if p ∈ c then c else p :: c

/-- `HashSet::remove` on the cache. -/
def removeCache : List String → String → List String
  | [], _ => []
  | q :: qs, p => if q = p then removeCache qs p else q :: removeCache qs p

/-- `PeerWhitelist::remove_peer`: delete the row and evict from cache. -/
def remove_peer (s : WState) (p : String) : WState :=
  ⟨removeRows s.rows p, removeCache s.cache p⟩

/-- `PeerWhitelist::add_peer`: upsert a row with fresh
`recommended_by = []` and `recommendation_count = 0`, then insert into
the cache. -/
def add_peer (s : WState) (now : Int) (p : String) (name : Option String)
    (public_key : Option (List Nat)) (expires_at : Option Int) : WState :=
  ⟨upsertRow s.rows ⟨p, name, public_key, now, expires_at, [], 0⟩,
   insertCache s.cache p⟩

/-- `PeerWhitelist::is_whitelisted`, returning the boolean result and
the state after its side effects.  Cache hit: re-read the row's
`expires_at`; on a strictly past expiry, `remove_peer` and return
false; otherwise (including a missing row, whose query yields no
expiry) return true.  Cache miss: missing row is false; an expired row
is false without eviction; otherwise insert into the cache and return
true. -/
def is_whitelisted (s : WState) (now : Int) (p : String) : Bool × WState :=
  if p ∈ s.cache then
    match findRow s.rows p with
    | some e =>
        match e.expires_at with
        | some t => if t < now then (false, remove_peer s p) else (true, s)
        | none => (true, s)
    | none => (true, s)
  else
    match findRow s.rows p with
    | none => (false, s)
    | some e =>
        match e.expires_at with
        | some t =>
            if t < now then (false, s) else (true, ⟨s.rows, insertCache s.cache p⟩)
        | none => (true, ⟨s.rows, insertCache s.cache p⟩)

/-- `PeerWhitelist::add_recommendation`: bail if the recommender is not
currently whitelisted; read the target's `(recommended_by,
recommendation_count)` (missing row reads as `([], 0)`); if the
recommender is absent, push it, bump the count and
`INSERT OR REPLACE` the row with the supplied name (only the listed
columns are written, so `public_key` and `expires_at` become NULL).
Returns whether the call succeeded, with the resulting state. -/
def add_recommendation (s : WState) (now : Int) (target recommender : String)
    (name : Option String) : Bool × WState :=
  let r := is_whitelisted s now recommender
  if r.1 = false then (false, r.2)
  else
    let old := match findRow r.2.rows target with
      | some e => (e.recommended_by, e.recommendation_count)
      | none => ([], 0)
    if recommender ∈ old.1 then (true, r.2)
    else
      (true, ⟨upsertRow r.2.rows
        ⟨target, name, none, now, none, old.1 ++ [recommender], old.2 + 1⟩,
        r.2.cache⟩)

/-- The recommender loop of `is_trusted_by_chain`: check each id in
`recommended_by` with `is_whitelisted`, threading its side effects, and
stop at the first success. -/
def checkRecommenders (s : WState) (now : Int) : List String → Bool × WState
  | [] => (false, s)
  | r :: rs =>
      let b := is_whitelisted s now r
      if b.1 then (true, b.2) else checkRecommenders b.2 now rs

/-- The entry loop of `is_trusted_by_chain`: scan the `list_peers`
snapshot for entries of the queried peer with a positive
recommendation count and run `checkRecommenders` on them. -/
def chainLoop (s : WState) (now : Int) (p : String) : List WEntry → Bool × WState
  | [] => (false, s)
  | e :: es =>
      if e.peer_id = p ∧ 0 < e.recommendation_count then
        let b := checkRecommenders s now e.recommended_by
        if b.1 then (true, b.2) else chainLoop b.2 now p es
      else chainLoop s now p es

/-- `PeerWhitelist::is_trusted_by_chain`: directly whitelisted, or some
member of the peer's `recommended_by` currently whitelisted, scanning
the `list_peers` snapshot taken after the direct check. -/
def is_trusted_by_chain (s : WState) (now : Int) (p : String) : Bool × WState :=
  let b := is_whitelisted s now p
  if b.1 then (true, b.2) else chainLoop b.2 now p b.2.rows

/-! Characterization of `is_whitelisted` and its side effects. -/

/-- The boolean outcome of `is_whitelisted` depends only on the row and
(for a missing row) cache membership: a present row answers by its
expiry alone, a missing row answers by cache membership. -/
def pureWl (s : WState) (now : Int) (p : String) : Bool :=
  match findRow s.rows p with
  | some e =>
      match e.expires_at with
      | some t => !decide (t < now)
      | none => true
  | none => decide (p ∈ s.cache)

lemma is_whitelisted_fst (s : WState) (now : Int) (p : String) :
    (is_whitelisted s now p).1 = pureWl s now p := by
  unfold is_whitelisted pureWl
  by_cases hc : p ∈ s.cache <;>
  · cases h : findRow s.rows p with
    | none => simp [hc]
    | some e =>
        cases he : e.expires_at with
        | none => simp [hc, he]
        | some t =>
            by_cases ht : t < now
            · simp [hc, he, ht]
            · simp [hc, he, ht]

lemma is_whitelisted_false_snd (s : WState) (now : Int) (p : String)
    (h : (is_whitelisted s now p).1 = false) :
    (is_whitelisted s now p).2 = s ∨
      ((is_whitelisted s now p).2 = remove_peer s p ∧ p ∈ s.cache ∧
        ∃ e t, findRow s.rows p = some e ∧ e.expires_at = some t ∧ t < now) := by
  by_cases hc : p ∈ s.cache
  · cases hf : findRow s.rows p with
    | none => simp [is_whitelisted, hc, hf] at h
    | some e =>
        cases he : e.expires_at with
        | none => simp [is_whitelisted, hc, hf, he] at h
        | some t =>
            by_cases ht : t < now
            · refine Or.inr ⟨?_, hc, e, t, rfl, he, ht⟩
              simp [is_whitelisted, hc, hf, he, ht]
            · simp [is_whitelisted, hc, hf, he, ht] at h
  · cases hf : findRow s.rows p with
    | none => exact Or.inl (by simp [is_whitelisted, hc, hf])
    | some e =>
        cases he : e.expires_at with
        | none => simp [is_whitelisted, hc, hf, he] at h
        | some t =>
            by_cases ht : t < now
            · exact Or.inl (by simp [is_whitelisted, hc, hf, he, ht])
            · simp [is_whitelisted, hc, hf, he, ht] at h

lemma findRow_removeRows_self (rows : List WEntry) (p : String) :
    findRow (removeRows rows p) p = none := by
  induction rows with
  | nil => simp [removeRows, findRow]
  | cons e es ih =>
      by_cases h : e.peer_id = p
      · simp [removeRows, h, ih]
      · simp [removeRows, findRow, h, ih]

lemma findRow_removeRows_ne (rows : List WEntry) (p q : String) (h : q ≠ p) :
    findRow (removeRows rows p) q = findRow rows q := by
  induction rows with
  | nil => simp [removeRows]
  | cons e es ih =>
      by_cases hp : e.peer_id = p
      · have hne : ¬ e.peer_id = q := by
          rw [hp]; exact fun hq => h hq.symm
        rw [removeRows, if_pos hp, findRow, if_neg hne, ih]
      · rw [removeRows, if_neg hp, findRow, findRow]
        by_cases hq : e.peer_id = q
        · rw [if_pos hq, if_pos hq]
        · rw [if_neg hq, if_neg hq, ih]

lemma mem_removeCache (c : List String) (p q : String) :
    q ∈ removeCache c p ↔ q ∈ c ∧ q ≠ p := by
  induction c with
  | nil => simp [removeCache]
  | cons x xs ih =>
      rw [removeCache]
      by_cases h : x = p
      · rw [if_pos h, ih]
        subst h
        constructor
        · rintro ⟨hq, hne⟩
          exact ⟨List.mem_cons_of_mem x hq, hne⟩
        · rintro ⟨hq, hne⟩
          rcases List.mem_cons.mp hq with h1 | h1
          · exact absurd h1 hne
          · exact ⟨h1, hne⟩
      · rw [if_neg h]
        constructor
        · intro hq
          rcases List.mem_cons.mp hq with h1 | h1
          · subst h1
            exact ⟨List.mem_cons_self q xs, h⟩
          · rcases ih.mp h1 with ⟨hm, hne⟩
            exact ⟨List.mem_cons_of_mem x hm, hne⟩
        · rintro ⟨hq, hne⟩
          rcases List.mem_cons.mp hq with h1 | h1
          · subst h1
            exact List.mem_cons_self q _
          · exact List.mem_cons_of_mem x (ih.mpr ⟨h1, hne⟩)

lemma pureWl_remove_peer_ne (s : WState) (now : Int) (r q : String) (h : q ≠ r) :
    pureWl (remove_peer s r) now q = pureWl s now q := by
  unfold pureWl remove_peer
  simp only [findRow_removeRows_ne s.rows r q h]
  cases findRow s.rows q with
  | none => simp [mem_removeCache, h]
  | some e => rfl

/-- A failed `is_whitelisted` check leaves every peer's subsequent
`is_whitelisted` outcome unchanged (its only possible side effect is
evicting the checked peer's already-expired row). -/
lemma pureWl_after_false (s : WState) (now : Int) (r : String)
    (h : (is_whitelisted s now r).1 = false) (q : String) :
    pureWl ((is_whitelisted s now r).2) now q = pureWl s now q := by
  rcases is_whitelisted_false_snd s now r h with h2 | ⟨h2, hc, e, t, hf, he, ht⟩
  · rw [h2]
  · rw [h2]
    by_cases hq : q = r
    · subst hq
      unfold pureWl remove_peer
      simp [findRow_removeRows_self, mem_removeCache, hf, he, ht]
    · exact pureWl_remove_peer_ne s now r q hq

lemma checkRecommenders_fst (now : Int) (l : List String) (s : WState) :
    (checkRecommenders s now l).1 = true ↔ ∃ r ∈ l, pureWl s now r = true := by
  induction l generalizing s with
  | nil => simp [checkRecommenders]
  | cons r rs ih =>
      by_cases hb : (is_whitelisted s now r).1 = true
      · constructor
        · intro _
          exact ⟨r, List.mem_cons_self r rs, by rw [← is_whitelisted_fst]; exact hb⟩
        · intro _
          simp [checkRecommenders, hb]
      · have hb' : (is_whitelisted s now r).1 = false := by
          cases h : (is_whitelisted s now r).1
          · rfl
          · exact absurd h hb
        have hstep : (checkRecommenders s now (r :: rs)).1
            = (checkRecommenders (is_whitelisted s now r).2 now rs).1 := by
          simp [checkRecommenders, hb']
        rw [hstep, ih]
        constructor
        · rintro ⟨x, hx, hw⟩
          refine ⟨x, List.mem_cons_of_mem r hx, ?_⟩
          rw [← pureWl_after_false s now r hb' x]
          exact hw
        · rintro ⟨x, hx, hw⟩
          rcases List.mem_cons.mp hx with hx | hx
          · subst hx
            rw [is_whitelisted_fst] at hb'
            rw [hw] at hb'
            cases hb'
          · exact ⟨x, hx, by rw [pureWl_after_false s now r hb' x]; exact hw⟩

lemma chainLoop_no_entry (now : Int) (p : String) (es : List WEntry) (s : WState)
    (h : ∀ e ∈ es, e.peer_id ≠ p) : chainLoop s now p es = (false, s) := by
  induction es generalizing s with
  | nil => rfl
  | cons e es ih =>
      have he : e.peer_id ≠ p := h e (List.mem_cons_self e es)
      have hcond : ¬ (e.peer_id = p ∧ 0 < e.recommendation_count) :=
        fun hx => he hx.1
      rw [chainLoop, if_neg hcond]
      exact ih s fun x hx => h x (List.mem_cons_of_mem e hx)

lemma mem_removeRows_ne (rows : List WEntry) (p : String) :
    ∀ e ∈ removeRows rows p, e.peer_id ≠ p := by
  induction rows with
  | nil => simp [removeRows]
  | cons x xs ih =>
      by_cases h : x.peer_id = p
      · simpa [removeRows, h] using ih
      · intro e he
        rw [removeRows, if_neg h] at he
        rcases List.mem_cons.mp he with he | he
        · subst he; exact h
        · exact ih e he

lemma chainLoop_fst (now : Int) (p : String) (rows : List WEntry) (s : WState)
    (hnodup : (rows.map WEntry.peer_id).Nodup) :
    (chainLoop s now p rows).1 = true ↔
      ∃ e, findRow rows p = some e ∧ 0 < e.recommendation_count ∧
        ∃ r ∈ e.recommended_by, pureWl s now r = true := by
  induction rows with
  | nil => simp [chainLoop, findRow]
  | cons e es ih =>
      have hnd := List.nodup_cons.mp hnodup
      by_cases hp : e.peer_id = p
      · have hes : ∀ x ∈ es, x.peer_id ≠ p := by
          intro x hx hxp
          apply hnd.1
          rw [hp, ← hxp]
          exact List.mem_map_of_mem WEntry.peer_id hx
        have hfind : findRow (e :: es) p = some e := by
          rw [findRow, if_pos hp]
        by_cases hc : 0 < e.recommendation_count
        · have hcond : e.peer_id = p ∧ 0 < e.recommendation_count := ⟨hp, hc⟩
          by_cases hb : (checkRecommenders s now e.recommended_by).1 = true
          · have hl : (chainLoop s now p (e :: es)).1 = true := by
              simp [chainLoop, hcond, hb]
            rw [hl]
            constructor
            · intro _
              exact ⟨e, hfind, hc, (checkRecommenders_fst now e.recommended_by s).mp hb⟩
            · intro _
              rfl
          · have hb' : (checkRecommenders s now e.recommended_by).1 = false := by
              cases h : (checkRecommenders s now e.recommended_by).1
              · rfl
              · exact absurd h hb
            have hl : (chainLoop s now p (e :: es)).1 = false := by
              rw [chainLoop, if_pos hcond]
              simp only [hb', Bool.false_eq_true, if_false]
              rw [chainLoop_no_entry now p es _ hes]
            rw [hl]
            simp only [Bool.false_eq_true, false_iff]
            rintro ⟨x, hx, _, r, hr, hw⟩
            rw [hfind] at hx
            cases hx
            exact absurd ((checkRecommenders_fst now e.recommended_by s).mpr
              ⟨r, hr, hw⟩) hb
        · have hcond : ¬ (e.peer_id = p ∧ 0 < e.recommendation_count) :=
            fun hx => hc hx.2
          rw [chainLoop, if_neg hcond, chainLoop_no_entry now p es s hes]
          simp only [Bool.false_eq_true, false_iff]
          rintro ⟨x, hx, hcx, _⟩
          rw [hfind] at hx
          cases hx
          exact absurd hcx hc
      · have hcond : ¬ (e.peer_id = p ∧ 0 < e.recommendation_count) :=
          fun hx => hp hx.1
        rw [chainLoop, if_neg hcond, findRow, if_neg hp]
        exact ih hnd.2

lemma findRow_mem (rows : List WEntry) (p : String) (e : WEntry)
    (h : findRow rows p = some e) : e ∈ rows ∧ e.peer_id = p := by
  induction rows with
  | nil => cases h
  | cons x xs ih =>
      rw [findRow] at h
      by_cases hx : x.peer_id = p
      · rw [if_pos hx] at h
        injection h with h2
        subst h2
        exact ⟨List.mem_cons_self x xs, hx⟩
      · rw [if_neg hx] at h
        rcases ih h with ⟨hm, hp2⟩
        exact ⟨List.mem_cons_of_mem x hm, hp2⟩

/-- **C4.** `is_trusted_by_chain(P)` is true iff P is directly
whitelisted or some member of P's `recommended_by` is currently
whitelisted; in particular trust never extends a second hop.  The
hypotheses are the code's maintained row invariants: unique primary
keys, `recommendation_count` positive exactly when `recommended_by` is
non-empty, and an expired-while-cached row has no recommenders (rows
created by `add_peer` carry no recommenders; rows created by
`add_recommendation` carry no expiry). -/
theorem is_trusted_by_chain_iff (s : WState) (now : Int) (p : String)
    (hnodup : (s.rows.map WEntry.peer_id).Nodup)
    (hcnt : ∀ e ∈ s.rows, e.peer_id = p →
      (0 < e.recommendation_count ↔ e.recommended_by ≠ []))
    (hexp : ∀ e ∈ s.rows, e.peer_id = p → ∀ t, e.expires_at = some t →
      t < now → p ∈ s.cache → e.recommended_by = []) :
    (is_trusted_by_chain s now p).1 = true ↔
      ((is_whitelisted s now p).1 = true ∨
        ∃ e, findRow s.rows p = some e ∧
          ∃ r ∈ e.recommended_by, (is_whitelisted s now r).1 = true) := by
  have hfind_mem : ∀ e, findRow s.rows p = some e → e ∈ s.rows ∧ e.peer_id = p :=
    fun e h => findRow_mem s.rows p e h
  unfold is_trusted_by_chain
  by_cases hb : (is_whitelisted s now p).1 = true
  · simp [hb]
  · have hb' : (is_whitelisted s now p).1 = false := by
      cases h : (is_whitelisted s now p).1
      · rfl
      · exact absurd h hb
    simp only [hb', Bool.false_eq_true, if_false]
    rcases is_whitelisted_false_snd s now p hb' with h2 | ⟨h2, hc, e, t, hf, he, ht⟩
    · rw [h2, chainLoop_fst now p s.rows s hnodup]
      constructor
      · rintro ⟨x, hx, _, r, hr, hw⟩
        exact Or.inr ⟨x, hx, r, hr, by rw [is_whitelisted_fst]; exact hw⟩
      · rintro (h | ⟨x, hx, r, hr, hw⟩)
        · exact h.elim
        · refine ⟨x, hx, ?_, r, hr, by rw [← is_whitelisted_fst]; exact hw⟩
          rcases hfind_mem x hx with ⟨hm, hpp⟩
          exact (hcnt x hm hpp).mpr (by
            intro hnil; rw [hnil] at hr; cases hr)
    · rw [h2]
      have hrec : e.recommended_by = [] := by
        rcases hfind_mem e hf with ⟨hm, hpp⟩
        exact hexp e hm hpp t he ht hc
      have hrm : chainLoop (remove_peer s p) now p (remove_peer s p).rows
          = (false, remove_peer s p) :=
        chainLoop_no_entry now p _ _ (mem_removeRows_ne s.rows p)
      rw [hrm]
      simp only [Bool.false_eq_true, false_iff]
      rintro (h | ⟨x, hx, r, hr, _⟩)
      · exact h.elim
      · rw [hf] at hx
        cases hx
        rw [hrec] at hr
        cases hr

/-- Witness for C4: a one-hop chain at a concrete state (peer `X` is
not whitelisted itself but is recommended by the whitelisted `W`). -/
theorem is_trusted_by_chain_iff_witness :
    ((([⟨"X", none, none, 0, none, ["W"], 1⟩,
        ⟨"W", none, none, 0, none, [], 0⟩] : List WEntry).map WEntry.peer_id).Nodup) ∧
    ((is_trusted_by_chain ⟨[⟨"X", none, none, 0, none, ["W"], 1⟩,
        ⟨"W", none, none, 0, none, [], 0⟩], ["W"]⟩ 0 "X").1 = true ↔
      ((is_whitelisted ⟨[⟨"X", none, none, 0, none, ["W"], 1⟩,
          ⟨"W", none, none, 0, none, [], 0⟩], ["W"]⟩ 0 "X").1 = true ∨
        ∃ e, findRow [⟨"X", none, none, 0, none, ["W"], 1⟩,
            ⟨"W", none, none, 0, none, [], 0⟩] "X" = some e ∧
          ∃ r ∈ e.recommended_by,
            (is_whitelisted ⟨[⟨"X", none, none, 0, none, ["W"], 1⟩,
              ⟨"W", none, none, 0, none, [], 0⟩], ["W"]⟩ 0 r).1 = true)) :=
  ⟨by decide, is_trusted_by_chain_iff _ 0 "X" (by decide) (by decide) (by decide)⟩

/-! C7: the expiry comparison in `is_whitelisted` is `expires_dt < now`,
so a row whose expiry equals the current instant still answers true;
the claim's "strictly in the future" is refuted at that boundary. -/

/-- **C7 (counterexample).** It is not the case that `is_whitelisted`
returns true only when the row's expiry is absent or strictly in the
future: a cached row with `expires_at` equal to the current instant
still answers true. -/
theorem is_whitelisted_expiry_boundary :
    ¬ (∀ (s : WState) (now : Int) (p : String),
        (is_whitelisted s now p).1 = true →
          ∃ e, findRow s.rows p = some e ∧
            (e.expires_at = none ∨ ∃ t, e.expires_at = some t ∧ now < t)) := by
  intro h
  rcases h ⟨[⟨"P", none, none, 0, some 5, [], 0⟩], ["P"]⟩ 5 "P" (by decide)
    with ⟨e, he, hd⟩
  have hrow : findRow [⟨"P", none, none, 0, some 5, [], 0⟩] "P"
      = some (⟨"P", none, none, 0, some 5, [], 0⟩ : WEntry) := by decide
  rw [hrow] at he
  injection he with he2
  rcases hd with hn | ⟨t, ht, hlt⟩
  · rw [← he2] at hn
    simp at hn
  · rw [← he2] at ht
    simp at ht
    rw [← ht] at hlt
    exact absurd hlt (by decide)

lemma is_whitelisted_true_rows (s : WState) (now : Int) (p : String)
    (h : (is_whitelisted s now p).1 = true) :
    (is_whitelisted s now p).2.rows = s.rows := by
  by_cases hc : p ∈ s.cache
  · cases hf : findRow s.rows p with
    | none => simp [is_whitelisted, hc, hf]
    | some e =>
        cases he : e.expires_at with
        | none => simp [is_whitelisted, hc, hf, he]
        | some t =>
            by_cases ht : t < now
            · simp [is_whitelisted, hc, hf, he, ht] at h
            · simp [is_whitelisted, hc, hf, he, ht]
  · cases hf : findRow s.rows p with
    | none => simp [is_whitelisted, hc, hf] at h
    | some e =>
        cases he : e.expires_at with
        | none => simp [is_whitelisted, hc, hf, he]
        | some t =>
            by_cases ht : t < now
            · simp [is_whitelisted, hc, hf, he, ht] at h
            · simp [is_whitelisted, hc, hf, he, ht]

/-- **C7 (amended).** `is_whitelisted(P)` returns true iff a row for P
exists and either has no `expires_at` or its `expires_at` is not
strictly in the past (`now ≤ expires_at`; equality still answers true),
under the invariant that every cached id has a row. -/
theorem is_whitelisted_iff (s : WState) (now : Int) (p : String)
    (hc : ∀ q ∈ s.cache, findRow s.rows q ≠ none) :
    (is_whitelisted s now p).1 = true ↔
      ∃ e, findRow s.rows p = some e ∧ ∀ t, e.expires_at = some t → now ≤ t := by
  rw [is_whitelisted_fst]
  cases hf : findRow s.rows p with
  | none =>
      simp only [pureWl, hf, decide_eq_true_eq]
      constructor
      · intro h
        exact absurd hf (hc p h)
      · rintro ⟨e, he, _⟩
        exact Option.noConfusion he
  | some e =>
      simp only [pureWl, hf]
      cases he : e.expires_at with
      | none =>
          constructor
          · intro _
            refine ⟨e, rfl, fun t ht => ?_⟩
            rw [he] at ht
            exact Option.noConfusion ht
          · intro _
            simp [he]
      | some t =>
          simp only [he]
          constructor
          · intro h
            have hle : now ≤ t := by
              simpa using h
            exact ⟨e, rfl, fun u hu => by
              rw [he] at hu
              injection hu with hu
              rw [← hu]
              exact hle⟩
          · rintro ⟨x, hx, hall⟩
            injection hx with hx
            subst hx
            have hle := hall t he
            simp [not_lt.mpr hle]

/-- Witness for C7 (amended): a concrete state with an unexpired row. -/
theorem is_whitelisted_iff_witness :
    (∀ q ∈ (["P"] : List String),
      findRow [(⟨"P", none, none, 0, some 9, [], 0⟩ : WEntry)] q ≠ none) ∧
    ((is_whitelisted ⟨[⟨"P", none, none, 0, some 9, [], 0⟩], ["P"]⟩ 5 "P").1 = true ↔
      ∃ e, findRow [(⟨"P", none, none, 0, some 9, [], 0⟩ : WEntry)] "P" = some e ∧
        ∀ t, e.expires_at = some t → 5 ≤ t) :=
  ⟨by decide, is_whitelisted_iff ⟨[⟨"P", none, none, 0, some 9, [], 0⟩], ["P"]⟩ 5 "P"
    (by decide)⟩

/-! C8: `add_recommendation` never compares target and recommender; the
self-recommendation rejection lives in
`KeyDistributionManager::handle_trust_recommendation`. -/

/-- **C8 (counterexample).** `add_recommendation(target, recommender)`
does not fail when `target = recommender`: a whitelisted peer can be
recorded as recommending itself. -/
theorem add_recommendation_self_not_rejected :
    ¬ (∀ (s : WState) (now : Int) (target recommender : String) (nm : Option String),
        target = recommender →
          (add_recommendation s now target recommender nm).1 = false) := by
  intro h
  have hx := h ⟨[⟨"P", none, none, 0, none, [], 0⟩], ["P"]⟩ 0 "P" "P" none rfl
  exact absurd hx (by decide)

lemma findRow_upsertRow (rows : List WEntry) (e : WEntry) (q : String) :
    findRow (upsertRow rows e) q =
      if e.peer_id = q then some e else findRow rows q := by
  induction rows with
  | nil =>
      by_cases h : e.peer_id = q
      · simp [upsertRow, findRow, h]
      · simp [upsertRow, findRow, h]
  | cons x xs ih =>
      by_cases hx : x.peer_id = e.peer_id
      · rw [upsertRow, if_pos hx]
        by_cases h : e.peer_id = q
        · rw [findRow, if_pos h, if_pos h]
        · rw [findRow, if_neg h, if_neg h, findRow, if_neg (hx ▸ h)]
      · rw [upsertRow, if_neg hx, findRow, findRow]
        by_cases hq : x.peer_id = q
        · have : ¬ e.peer_id = q := fun h => hx (h ▸ hq.symm ▸ rfl)
          rw [if_pos hq, if_pos hq, if_neg this]
        · rw [if_neg hq, if_neg hq, ih]

/-- **C8 (amended).** `add_recommendation(target, recommender, name?)`
fails iff `recommender` is not currently whitelisted — equality of
target and recommender is not checked here (the self-recommendation
rejection is enforced by the caller,
`handle_trust_recommendation`).  On failure no row other than the
recommender's (whose already-expired row may be evicted) changes; on
success the recommender is added to the target's `recommended_by` only
if absent, with `recommendation_count` incremented accordingly, and no
other row changes. -/
theorem add_recommendation_spec (s : WState) (now : Int)
    (target recommender : String) (nm : Option String) :
    ((add_recommendation s now target recommender nm).1 = false ↔
      (is_whitelisted s now recommender).1 = false) ∧
    ((add_recommendation s now target recommender nm).1 = false →
      ∀ q, q ≠ recommender →
        findRow (add_recommendation s now target recommender nm).2.rows q
          = findRow s.rows q) ∧
    ((is_whitelisted s now recommender).1 = true →
      (∀ e, findRow s.rows target = some e → recommender ∈ e.recommended_by →
        (add_recommendation s now target recommender nm).2.rows = s.rows) ∧
      (∀ e, findRow s.rows target = some e → recommender ∉ e.recommended_by →
        findRow (add_recommendation s now target recommender nm).2.rows target
          = some ⟨target, nm, none, now, none,
              e.recommended_by ++ [recommender], e.recommendation_count + 1⟩) ∧
      (findRow s.rows target = none →
        findRow (add_recommendation s now target recommender nm).2.rows target
          = some ⟨target, nm, none, now, none, [recommender], 1⟩) ∧
      (∀ q, q ≠ target →
        findRow (add_recommendation s now target recommender nm).2.rows q
          = findRow s.rows q)) := by
  by_cases hw : (is_whitelisted s now recommender).1 = true
  · have hrows := is_whitelisted_true_rows s now recommender hw
    have hsucc : (add_recommendation s now target recommender nm).1 = true := by
      unfold add_recommendation
      simp only [hw, Bool.true_eq_false, if_false]
      split <;> rfl
    refine ⟨⟨fun h => by simp [hsucc] at h,
        fun h => Bool.noConfusion (h.symm.trans hw)⟩,
      fun h => by simp [hsucc] at h, ?_⟩
    intro _
    unfold add_recommendation
    simp only [hw, Bool.true_eq_false, if_false]
    rw [hrows]
    refine ⟨?_, ?_, ?_, ?_⟩
    · intro e he hmem
      rw [he]
      simp only [hmem, if_true]
      exact hrows
    · intro e he hmem
      rw [he]
      simp only [hmem, if_false]
      simp [findRow_upsertRow]
    · intro he
      rw [he]
      simp [findRow_upsertRow]
    · intro q hq
      rw [← hrows]
      cases hf : findRow (is_whitelisted s now recommender).2.rows target with
      | some e =>
          by_cases hmem : recommender ∈ e.recommended_by
          · simp [hf, hmem]
          · simp [hf, hmem, findRow_upsertRow, Ne.symm hq]
      | none => simp [hf, findRow_upsertRow, Ne.symm hq]
  · have hw' : (is_whitelisted s now recommender).1 = false := by
      cases h : (is_whitelisted s now recommender).1
      · rfl
      · exact absurd h hw
    have hfail : (add_recommendation s now target recommender nm).1 = false := by
      unfold add_recommendation
      simp [hw']
    have hsnd : (add_recommendation s now target recommender nm).2
        = (is_whitelisted s now recommender).2 := by
      unfold add_recommendation
      simp [hw']
    refine ⟨⟨fun _ => hw', fun _ => hfail⟩, ?_, fun h => absurd h hw⟩
    intro _ q hq
    rw [hsnd]
    rcases is_whitelisted_false_snd s now recommender hw' with h2 | ⟨h2, _, _⟩
    · rw [h2]
    · rw [h2]
      exact findRow_removeRows_ne s.rows recommender q hq

/-- Witness for C8 (amended): concrete failed and successful calls. -/
theorem add_recommendation_spec_witness :
    (is_whitelisted ⟨[⟨"R", none, none, 0, none, [], 0⟩], ["R"]⟩ 0 "R").1 = true ∧
    findRow (add_recommendation ⟨[⟨"R", none, none, 0, none, [], 0⟩], ["R"]⟩
        0 "X" "R" none).2.rows "X" = some ⟨"X", none, none, 0, none, ["R"], 1⟩ :=
  ⟨by decide,
    ((add_recommendation_spec ⟨[⟨"R", none, none, 0, none, [], 0⟩], ["R"]⟩
      0 "X" "R" none).2.2 (by decide)).2.2.1 (by decide)⟩

/-! C9: on a new recommendation the code rewrites the target's row with
`INSERT OR REPLACE INTO peer_whitelist (peer_id, name, added_at,
recommended_by, recommendation_count) VALUES ...`, so the supplied name
replaces the stored one and `public_key`/`expires_at` become NULL —
while `handle_key_response`/`handle_key_announcement` deliberately
preserve those fields, and the spec states that recommendation names do
not overwrite.  The dedup half of the claim does hold: repeating the
same recommender changes nothing. -/

/-- **C9 (code evaluation at the failing input).** A peer `P` directly
whitelisted with name "Alice" and a stored public key loses both on
`add_recommendation(P, R, "Bob")`: the row afterwards carries name
"Bob", no key and no expiry.  Repeating the same recommender leaves the
state unchanged (the dedup half of the claim holds). -/
theorem add_recommendation_name_overwrite :
    (add_recommendation ⟨[⟨"P", some "Alice", some [1], 0, none, [], 0⟩,
        ⟨"R", none, none, 0, none, [], 0⟩], ["R"]⟩ 7 "P" "R" (some "Bob")).1
      = true ∧
    findRow (add_recommendation ⟨[⟨"P", some "Alice", some [1], 0, none, [], 0⟩,
        ⟨"R", none, none, 0, none, [], 0⟩], ["R"]⟩ 7 "P" "R" (some "Bob")).2.rows "P"
      = some ⟨"P", some "Bob", none, 7, none, ["R"], 1⟩ ∧
    (add_recommendation
        (add_recommendation ⟨[⟨"P", some "Alice", some [1], 0, none, [], 0⟩,
          ⟨"R", none, none, 0, none, [], 0⟩], ["R"]⟩ 7 "P" "R" (some "Bob")).2
        8 "P" "R" (some "Carol")).2
      = (add_recommendation ⟨[⟨"P", some "Alice", some [1], 0, none, [], 0⟩,
          ⟨"R", none, none, 0, none, [], 0⟩], ["R"]⟩ 7 "P" "R" (some "Bob")).2 := by
  decide

/-! ### Admission gate: rate limiter (`src/security.rs`)

`Instant`s are integer milliseconds; `Duration::from_secs(60)` is
60000 and `Duration::from_secs(1)` is 1000.  The per-peer window
(`requests` entry for the peer, `or_insert(Vec::new)`) is the list of
recorded instants. -/

/-- The two rate-limiter rejections (`bail!` messages). -/
inductive RateLimitError
  | rateExceeded
  | burstExceeded
deriving DecidableEq

/-- The `rate_limit_per_minute`/`rate_limit_burst` part of
`SecurityConfig`. -/
structure RateLimitConfig where
  rate_limit_per_minute : Nat
  rate_limit_burst : Nat
deriving DecidableEq

/-- `RateLimiter::check_rate_limit` for one peer's window: retain
instants newer than `now - 60 s`; fail `rateExceeded` if the remaining
count reaches `rate_limit_per_minute`; fail `burstExceeded` if the
count within the last second reaches `rate_limit_burst`; otherwise push
`now` and succeed. -/
def check_rate_limit (cfg : RateLimitConfig) (requests : List Int) (now : Int) :
    Except RateLimitError (List Int) :=
  let kept := requests.filter (fun i => decide (i > now - 60000))
  if kept.length ≥ cfg.rate_limit_per_minute then .error .rateExceeded
  else if (kept.filter (fun i => decide (i > now - 1000))).length
      ≥ cfg.rate_limit_burst then .error .burstExceeded
  else .ok (kept ++ [now])

/-- **C6.** `check(P)` evicts instants outside the 60-second window,
then fails rate-exceeded when the remaining count reaches
`rate_limit_per_minute` (this check precedes the burst check, so a
sender violating both gets the rate error), then fails burst-exceeded
when the count within the last second reaches `rate_limit_burst`, and
otherwise records `now` and succeeds; with `rate_limit_per_minute = 2`,
`rate_limit_burst = 1`, two messages in quick succession give: first
accepted, second rejected by the burst check. -/
theorem check_rate_limit_spec (cfg : RateLimitConfig) (requests : List Int)
    (now : Int) :
    ((requests.filter (fun i => decide (i > now - 60000))).length
        ≥ cfg.rate_limit_per_minute →
      check_rate_limit cfg requests now = .error .rateExceeded) ∧
    ((requests.filter (fun i => decide (i > now - 60000))).length
        < cfg.rate_limit_per_minute →
      ((requests.filter (fun i => decide (i > now - 60000))).filter
          (fun i => decide (i > now - 1000))).length ≥ cfg.rate_limit_burst →
      check_rate_limit cfg requests now = .error .burstExceeded) ∧
    ((requests.filter (fun i => decide (i > now - 60000))).length
        < cfg.rate_limit_per_minute →
      ((requests.filter (fun i => decide (i > now - 60000))).filter
          (fun i => decide (i > now - 1000))).length < cfg.rate_limit_burst →
      check_rate_limit cfg requests now
        = .ok (requests.filter (fun i => decide (i > now - 60000)) ++ [now])) ∧
    (∀ t1 t2 : Int, t1 ≤ t2 → t2 - t1 < 1000 →
      check_rate_limit ⟨2, 1⟩ [] t1 = .ok [t1] ∧
      check_rate_limit ⟨2, 1⟩ [t1] t2 = .error .burstExceeded) := by
  refine ⟨?_, ?_, ?_, ?_⟩
  · intro h
    simp only [check_rate_limit, if_pos h]
  · intro h1 h2
    simp only [check_rate_limit, if_neg (not_le.mpr h1), if_pos h2]
  · intro h1 h2
    simp only [check_rate_limit, if_neg (not_le.mpr h1), if_neg (not_le.mpr h2)]
  · intro t1 t2 h12 hlt
    have h60 : t1 > t2 - 60000 := by omega
    have h1 : t1 > t2 - 1000 := by omega
    constructor
    · simp [check_rate_limit]
    · simp [check_rate_limit, h60, h1]

/-- Witness for C6: two calls at the same instant with
`rate_limit_per_minute = 2`, `rate_limit_burst = 1`. -/
theorem check_rate_limit_spec_witness :
    (0 : Int) ≤ 0 ∧ (0 : Int) - 0 < 1000 ∧
    check_rate_limit ⟨2, 1⟩ [] 0 = .ok [0] ∧
    check_rate_limit ⟨2, 1⟩ [(0 : Int)] 0 = .error .burstExceeded :=
  ⟨by decide, by decide,
    ((check_rate_limit_spec ⟨2, 1⟩ [] 0).2.2.2 0 0 (by decide) (by decide)).1,
    ((check_rate_limit_spec ⟨2, 1⟩ [] 0).2.2.2 0 0 (by decide) (by decide)).2⟩

/-! ### Admission gate: access control and connection registry
(`src/security.rs`, `src/connection_manager.rs`)

Remote IPs are modelled as strings; the per-IP counter map and the
active-connection map are association lists. -/

/-- First-match lookup in an association list keyed by `String`. -/
def lookupPair {β : Type} : List (String × β) → String → Option β
  | [], _ => none
  | x :: xs, k => if x.1 = k then some x.2 else lookupPair xs k

/-- In-place update of an association list (`HashMap::insert`). -/
def setPair {β : Type} : List (String × β) → String → β → List (String × β)
  | [], k, v => [(k, v)]
  | x :: xs, k, v => if x.1 = k then (k, v) :: xs else x :: setPair xs k v

/-- `HashMap::remove`. -/
def removePair {β : Type} : List (String × β) → String → List (String × β)
  | [], _ => []
  | x :: xs, k => if x.1 = k then removePair xs k else x :: removePair xs k

/-- The access-control part of `SecurityConfig`. -/
structure ACConfig where
  max_connections_per_ip : Nat
  blocked_peers : List String
  allowed_peers : Option (List String)
deriving DecidableEq

/-- `ConnectionManager` state together with the `AccessControl` it
holds: the optional whitelist handle, the per-IP counters and the
active `peer → ip` bindings. -/
structure CMState where
  wl : Option WState
  connections_per_ip : List (String × Nat)
  active_connections : List (String × String)
deriving DecidableEq

/-- `AccessControl::check_connection_limit`: `entry(ip).or_insert(0)`;
fail if the count has reached `max_connections_per_ip`, otherwise
increment. -/
def check_connection_limit (cfg : ACConfig) (m : List (String × Nat))
    (ip : String) : Bool × List (String × Nat) :=
  let count := (lookupPair m ip).getD 0
  let m1 := if (lookupPair m ip).isSome then m else setPair m ip 0
  if count ≥ cfg.max_connections_per_ip then (false, m1)
  else (true, setPair m1 ip (count + 1))

/-- `AccessControl::release_connection`: decrement with saturation and
drop the entry at zero; absent entries are untouched. -/
def release_connection (m : List (String × Nat)) (ip : String) :
    List (String × Nat) :=
  match lookupPair m ip with
  | none => m
  | some c =>
      let c2 := c - 1
      if c2 = 0 then removePair m ip else setPair m ip c2

/-- `AccessControl::check_peer_allowed`: blocklist first; then the
attached whitelist (threading its side effects); else the legacy static
allowed set; else allow. -/
def check_peer_allowed (cfg : ACConfig) (wl : Option WState) (now : Int)
    (peer : String) : Bool × Option WState :=
  if peer ∈ cfg.blocked_peers then (false, wl)
  else
    match wl with
    | some w =>
        let r := is_whitelisted w now peer
        (r.1, some r.2)
    | none =>
        match cfg.allowed_peers with
        | some allowed => (decide (peer ∈ allowed), none)
        | none => (true, none)

/-- `ConnectionManager::handle_incoming_connection`: connection-limit
check (which increments), then peer-allowed check, then record the
binding; an error return keeps all state changes made so far. -/
def handle_incoming_connection (cfg : ACConfig) (st : CMState)
    (peer ip : String) (now : Int) : Bool × CMState :=
  let c := check_connection_limit cfg st.connections_per_ip ip
  if c.1 = false then (false, { st with connections_per_ip := c.2 })
  else
    let a := check_peer_allowed cfg st.wl now peer
    let st1 : CMState := { wl := a.2, connections_per_ip := c.2,
                           active_connections := st.active_connections }
    if a.1 = false then (false, st1)
    else (true, { st1 with
      active_connections := setPair st.active_connections peer ip })

/-- `ConnectionManager::handle_connection_closed`: release the IP
counter only for a recorded binding, then drop the binding. -/
def handle_connection_closed (st : CMState) (peer : String) : CMState :=
  match lookupPair st.active_connections peer with
  | some ip =>
      { st with active_connections := removePair st.active_connections peer,
                connections_per_ip := release_connection st.connections_per_ip ip }
  | none => st

lemma lookupPair_setPair_self {β : Type} (m : List (String × β)) (k : String)
    (v : β) : lookupPair (setPair m k v) k = some v := by
  induction m with
  | nil => simp [setPair, lookupPair]
  | cons x xs ih =>
      by_cases h : x.1 = k
      · simp [setPair, lookupPair, h]
      · simp [setPair, lookupPair, h, ih]

lemma check_connection_limit_pass (cfg : ACConfig) (m : List (String × Nat))
    (ip : String) (h : (lookupPair m ip).getD 0 < cfg.max_connections_per_ip) :
    (check_connection_limit cfg m ip).1 = true ∧
      lookupPair (check_connection_limit cfg m ip).2 ip
        = some ((lookupPair m ip).getD 0 + 1) := by
  unfold check_connection_limit
  simp only [if_neg (not_le.mpr h)]
  exact ⟨trivial, lookupPair_setPair_self _ ip _⟩

/-- **C10.** When `handle_incoming_connection(peer, ip)` passes the
per-IP limit check (which increments the counter) but the peer-allowed
check then fails, the call returns an error, records no binding, and
leaves the counter incremented; and since `handle_connection_closed`
releases only recorded bindings, closing any unrecorded peer leaves the
state — including the leaked count — untouched, so the denied attempt
permanently consumes one of the IP's admission slots. -/
theorem handle_incoming_connection_denied_leaks (cfg : ACConfig) (st : CMState)
    (peer ip : String) (now : Int)
    (hlimit : (lookupPair st.connections_per_ip ip).getD 0
      < cfg.max_connections_per_ip)
    (hdenied : (check_peer_allowed cfg st.wl now peer).1 = false) :
    (handle_incoming_connection cfg st peer ip now).1 = false ∧
    (handle_incoming_connection cfg st peer ip now).2.active_connections
      = st.active_connections ∧
    lookupPair (handle_incoming_connection cfg st peer ip now).2.connections_per_ip
      ip = some ((lookupPair st.connections_per_ip ip).getD 0 + 1) ∧
    (∀ q, lookupPair
        (handle_incoming_connection cfg st peer ip now).2.active_connections q
        = none →
      handle_connection_closed (handle_incoming_connection cfg st peer ip now).2 q
        = (handle_incoming_connection cfg st peer ip now).2) := by
  rcases check_connection_limit_pass cfg st.connections_per_ip ip hlimit
    with ⟨hpass, hcount⟩
  have hstep : handle_incoming_connection cfg st peer ip now
      = (false, { wl := (check_peer_allowed cfg st.wl now peer).2,
                  connections_per_ip
                    := (check_connection_limit cfg st.connections_per_ip ip).2,
                  active_connections := st.active_connections }) := by
    unfold handle_incoming_connection
    simp only [hpass, hdenied, Bool.true_eq_false, if_false, if_true]
  rw [hstep]
  refine ⟨rfl, rfl, hcount, ?_⟩
  intro q hq
  unfold handle_connection_closed
  rw [hq]

/-- Witness for C10: a blocked peer connecting from a fresh IP. -/
theorem handle_incoming_connection_denied_leaks_witness :
    (lookupPair ([] : List (String × Nat)) "A").getD 0 < 1 ∧
    (check_peer_allowed ⟨1, ["P"], none⟩ none 0 "P").1 = false ∧
    (handle_incoming_connection ⟨1, ["P"], none⟩ ⟨none, [], []⟩ "P" "A" 0).1
      = false ∧
    lookupPair (handle_incoming_connection ⟨1, ["P"], none⟩ ⟨none, [], []⟩
        "P" "A" 0).2.connections_per_ip "A"
      = some ((lookupPair ([] : List (String × Nat)) "A").getD 0 + 1) :=
  ⟨by decide, by decide,
    (handle_incoming_connection_denied_leaks ⟨1, ["P"], none⟩ ⟨none, [], []⟩
      "P" "A" 0 (by decide) (by decide)).1,
    (handle_incoming_connection_denied_leaks ⟨1, ["P"], none⟩ ⟨none, [], []⟩
      "P" "A" 0 (by decide) (by decide)).2.2.1⟩

/-! ### Key distribution manager (`src/key_distribution.rs`)

Protobuf key decoding and peer-id derivation live in `libp2p`; they are
modelled as an abstract codec.  The replay fingerprint
`format!("{:?}:{:?}", message.data, message.signature)` is a
deterministic injective function of payload and signature, modelled as
the pair itself.  Peer-id parsing of stored id strings succeeds (ids
are stored via `PeerId::to_string`). -/

/-- `libp2p::identity` primitives: `PublicKey::try_decode_protobuf`,
`PublicKey::encode_protobuf` and `PeerId::from(PublicKey)`. -/
structure PkCodec (PK : Type) where
  decode : List Nat → Option PK
  encode : PK → List Nat
  derive : PK → String

/-- `KeyDistributionConfig`. -/
structure KDConfig where
  auto_share_keys : Bool
  auto_request_keys : Bool
  accept_whitelist_requests : Bool
  max_message_age_hours : Nat
deriving DecidableEq

/-- `KeyDistributionMessage` (timestamps as integer seconds). -/
inductive KeyDistributionMessage
  | KeyRequest (requestor target : String) (timestamp : Int)
  | KeyResponse (target : String) (public_key : List Nat) (timestamp : Int)
  | KeyAnnouncement (peer_id : String) (public_key : List Nat) (timestamp : Int)
  | WhitelistRequest (peer_id : String) (public_key : List Nat)
      (name : Option String) (timestamp : Int)
  | TrustRecommendation (recommender recommended : String)
      (name : Option String) (timestamp : Int)
deriving DecidableEq

/-- `KeyDistributionManager` mutable state: the whitelist handle, the
pending-request map and the replay cache (fingerprint → first seen). -/
structure KDState where
  whitelist : WState
  pending : List (String × Int)
  processed : List ((KeyDistributionMessage × List Nat) × Int)
deriving DecidableEq

/-- The `timestamp` field of each variant. -/
def msgTimestamp : KeyDistributionMessage → Int
  | .KeyRequest _ _ t => t
  | .KeyResponse _ _ t => t
  | .KeyAnnouncement _ _ t => t
  | .WhitelistRequest _ _ _ t => t
  | .TrustRecommendation _ _ _ t => t

/-- `PeerWhitelist::get_public_key`: stored bytes decoded through the
codec; a decode failure reads as absent. -/
def get_public_key {PK : Type} (C : PkCodec PK) (w : WState) (p : String) :
    Option PK :=
  match findRow w.rows p with
  | none => none
  | some e =>
      match e.public_key with
      | none => none
      | some bytes => C.decode bytes

/-- `KeyDistributionManager::handle_key_request`. -/
def handle_key_request {PK : Type} (C : PkCodec PK) (cfg : KDConfig)
    (localPeer : String) (localPk : List Nat) (st : KDState)
    (requestor target sender : String) (now : Int) :
    KDState × Except String (Option KeyDistributionMessage) :=
  if sender ≠ requestor then (st, .ok none)
  else
    let r := is_whitelisted st.whitelist now requestor
    let st1 := { st with whitelist := r.2 }
    if r.1 = false then (st1, .ok none)
    else if cfg.auto_share_keys = false then (st1, .ok none)
    else if target = localPeer then
      (st1, .ok (some (.KeyResponse localPeer localPk now)))
    else
      match get_public_key C r.2 target with
      | some pk => (st1, .ok (some (.KeyResponse target (C.encode pk) now)))
      | none => (st1, .ok none)

/-- `KeyDistributionManager::handle_key_response`.  A decode failure
propagates as an error (the `?` operator), leaving prior state changes
in place. -/
def handle_key_response {PK : Type} (C : PkCodec PK) (st : KDState)
    (target : String) (public_key : List Nat) (sender : String) (now : Int) :
    KDState × Except String (Option KeyDistributionMessage) :=
  let r := is_whitelisted st.whitelist now sender
  let st1 := { st with whitelist := r.2 }
  if r.1 = false then (st1, .ok none)
  else
    match C.decode public_key with
    | none => (st1, .error "decode")
    | some pk =>
        if C.derive pk ≠ target then (st1, .ok none)
        else
          let st2 := { st1 with pending := removePair st1.pending target }
          let r2 := is_whitelisted st2.whitelist now target
          let st3 := { st2 with whitelist := r2.2 }
          if r2.1 = false then (st3, .ok none)
          else
            match findRow r2.2.rows target with
            | some e =>
                ({ st3 with
                    whitelist := add_peer r2.2 now target e.name (some (C.encode pk)) e.expires_at },
                 .ok none)
            | none => (st3, .ok none)

/-- `KeyDistributionManager::handle_key_announcement`. -/
def handle_key_announcement {PK : Type} (C : PkCodec PK) (st : KDState)
    (peer_id : String) (public_key : List Nat) (sender : String) (now : Int) :
    KDState × Except String (Option KeyDistributionMessage) :=
  if sender ≠ peer_id then (st, .ok none)
  else
    let r := is_whitelisted st.whitelist now sender
    let st1 := { st with whitelist := r.2 }
    if r.1 = false then (st1, .ok none)
    else
      match C.decode public_key with
      | none => (st1, .error "decode")
      | some pk =>
          if C.derive pk ≠ peer_id then (st1, .ok none)
          else
            match findRow r.2.rows peer_id with
            | some e =>
                ({ st1 with
                    whitelist := add_peer r.2 now peer_id e.name (some (C.encode pk)) e.expires_at },
                 .ok none)
            | none => (st1, .ok none)

/-- `KeyDistributionManager::handle_whitelist_request` (its `name`
argument is only logged). -/
def handle_whitelist_request {PK : Type} (C : PkCodec PK) (cfg : KDConfig)
    (st : KDState) (peer_id : String) (public_key : List Nat)
    (_name : Option String) (sender : String) :
    KDState × Except String (Option KeyDistributionMessage) :=
  if cfg.accept_whitelist_requests = false then (st, .ok none)
  else if sender ≠ peer_id then (st, .ok none)
  else
    match C.decode public_key with
    | none => (st, .error "decode")
    | some pk =>
        if C.derive pk ≠ peer_id then (st, .ok none)
        else (st, .ok none)

/-- `KeyDistributionManager::handle_trust_recommendation`. -/
def handle_trust_recommendation (st : KDState)
    (recommender recommended : String) (name : Option String) (sender : String)
    (now : Int) : KDState × Except String (Option KeyDistributionMessage) :=
  if sender ≠ recommender then (st, .ok none)
  else
    let r := is_whitelisted st.whitelist now recommender
    let st1 := { st with whitelist := r.2 }
    if r.1 = false then (st1, .ok none)
    else if recommender = recommended then (st1, .ok none)
    else
      let a := add_recommendation r.2 now recommended recommender name
      ({ st1 with whitelist := a.2 }, .ok none)

/-- `KeyDistributionManager::handle_message`: drop messages older than
`max_message_age`; drop fingerprints already in the replay cache
(before any per-variant handling); otherwise record the fingerprint,
evict stale cache entries and dispatch by variant. -/
def handle_message {PK : Type} (C : PkCodec PK) (cfg : KDConfig)
    (localPeer : String) (localPk : List Nat) (st : KDState)
    (data : KeyDistributionMessage) (signature : List Nat) (sender : String)
    (now : Int) : KDState × Except String (Option KeyDistributionMessage) :=
  let maxAge : Int := (cfg.max_message_age_hours : Int) * 3600
  if now - msgTimestamp data > maxAge then (st, .ok none)
  else if st.processed.any (fun x => decide (x.1 = (data, signature))) then
    (st, .ok none)
  else
    let processed2 := (((data, signature), now) :: st.processed).filter
      (fun x => decide (x.2 > now - maxAge))
    let st1 := { st with processed := processed2 }
    match data with
    | .KeyRequest requestor target _ =>
        handle_key_request C cfg localPeer localPk st1 requestor target sender now
    | .KeyResponse target pk _ => handle_key_response C st1 target pk sender now
    | .KeyAnnouncement peer pk _ =>
        handle_key_announcement C st1 peer pk sender now
    | .WhitelistRequest peer pk name _ =>
        handle_whitelist_request C cfg st1 peer pk name sender
    | .TrustRecommendation recommender recommended name _ =>
        handle_trust_recommendation st1 recommender recommended name sender now

/-! No per-variant handler touches the replay cache. -/

lemma handle_key_request_processed {PK : Type} (C : PkCodec PK) (cfg : KDConfig)
    (localPeer : String) (localPk : List Nat) (st : KDState)
    (requestor target sender : String) (now : Int) :
    (handle_key_request C cfg localPeer localPk st requestor target sender
      now).1.processed = st.processed := by
  unfold handle_key_request
  dsimp only
  repeat (first | rfl | split)

lemma handle_key_response_processed {PK : Type} (C : PkCodec PK) (st : KDState)
    (target : String) (public_key : List Nat) (sender : String) (now : Int) :
    (handle_key_response C st target public_key sender now).1.processed
      = st.processed := by
  unfold handle_key_response
  dsimp only
  repeat (first | rfl | split)

lemma handle_key_announcement_processed {PK : Type} (C : PkCodec PK)
    (st : KDState) (peer_id : String) (public_key : List Nat) (sender : String)
    (now : Int) :
    (handle_key_announcement C st peer_id public_key sender now).1.processed
      = st.processed := by
  unfold handle_key_announcement
  dsimp only
  repeat (first | rfl | split)

lemma handle_whitelist_request_processed {PK : Type} (C : PkCodec PK)
    (cfg : KDConfig) (st : KDState) (peer_id : String) (public_key : List Nat)
    (name : Option String) (sender : String) :
    (handle_whitelist_request C cfg st peer_id public_key name sender).1.processed
      = st.processed := by
  unfold handle_whitelist_request
  repeat (first | rfl | split)

lemma handle_trust_recommendation_processed (st : KDState)
    (recommender recommended : String) (name : Option String) (sender : String)
    (now : Int) :
    (handle_trust_recommendation st recommender recommended name sender
      now).1.processed = st.processed := by
  unfold handle_trust_recommendation
  dsimp only
  repeat (first | rfl | split)

/-- A message whose fingerprint is in the replay cache is dropped with
no state change, before any per-variant handling. -/
lemma handle_message_dropped {PK : Type} (C : PkCodec PK) (cfg : KDConfig)
    (localPeer : String) (localPk : List Nat) (st : KDState)
    (data : KeyDistributionMessage) (signature : List Nat) (sender : String)
    (now : Int)
    (hmem : st.processed.any (fun x => decide (x.1 = (data, signature))) = true) :
    handle_message C cfg localPeer localPk st data signature sender now
      = (st, .ok none) := by
  unfold handle_message
  by_cases hA : now - msgTimestamp data > (cfg.max_message_age_hours : Int) * 3600
  · rw [if_pos hA]
  · rw [if_neg hA, if_pos hmem]

/-- **C5.** Delivering the same signed key-distribution message twice
produces at most one state mutation: if the first delivery is within
`max_message_age` of the message timestamp, it inserts the message's
fingerprint (its payload-plus-signature) into the replay cache, and the
second delivery — at any later instant — is dropped before any
per-variant handling, returning the state of the first delivery
unchanged; in particular a replayed `KeyAnnouncement` sets the
whitelist's public key for the sender at most once (on the first
delivery only). -/
theorem handle_message_replay_drop {PK : Type} (C : PkCodec PK) (cfg : KDConfig)
    (localPeer : String) (localPk : List Nat) (st : KDState)
    (data : KeyDistributionMessage) (signature : List Nat) (sender : String)
    (t1 t2 : Int)
    (hpos : 0 < cfg.max_message_age_hours)
    (hage : t1 - msgTimestamp data ≤ (cfg.max_message_age_hours : Int) * 3600) :
    handle_message C cfg localPeer localPk
        (handle_message C cfg localPeer localPk st data signature sender t1).1
        data signature sender t2
      = ((handle_message C cfg localPeer localPk st data signature sender t1).1,
         .ok none) := by
  have hA1 : ¬ (t1 - msgTimestamp data
      > (cfg.max_message_age_hours : Int) * 3600) := not_lt.mpr hage
  by_cases hmem : st.processed.any (fun x => decide (x.1 = (data, signature))) = true
  · have h1 : handle_message C cfg localPeer localPk st data signature sender t1
        = (st, .ok none) := handle_message_dropped C cfg localPeer localPk st
          data signature sender t1 hmem
    rw [h1]
    exact handle_message_dropped C cfg localPeer localPk st data signature
      sender t2 hmem
  · have hproc : (handle_message C cfg localPeer localPk st data signature
        sender t1).1.processed
        = (((data, signature), t1) :: st.processed).filter
            (fun x => decide (x.2 > t1 - (cfg.max_message_age_hours : Int) * 3600)) := by
      unfold handle_message
      rw [if_neg hA1, if_neg hmem]
      cases data with
      | KeyRequest requestor target ts =>
          rw [handle_key_request_processed]
      | KeyResponse target pk ts =>
          rw [handle_key_response_processed]
      | KeyAnnouncement peer pk ts =>
          rw [handle_key_announcement_processed]
      | WhitelistRequest peer pk name ts =>
          rw [handle_whitelist_request_processed]
      | TrustRecommendation recommender recommended name ts =>
          rw [handle_trust_recommendation_processed]
    have hfp : ((data, signature), t1)
        ∈ (handle_message C cfg localPeer localPk st data signature
            sender t1).1.processed := by
      rw [hproc]
      apply List.mem_filter.mpr
      refine ⟨List.mem_cons_self _ _, ?_⟩
      simp only [decide_eq_true_eq]
      omega
    have hany : ((handle_message C cfg localPeer localPk st data signature
        sender t1).1.processed.any
          (fun x => decide (x.1 = (data, signature)))) = true := by
      apply List.any_eq_true.mpr
      exact ⟨((data, signature), t1), hfp, by simp⟩
    exact handle_message_dropped C cfg localPeer localPk _ data signature
      sender t2 hany

/-- Witness for C5: a concrete `KeyAnnouncement` delivered twice; the
codec accepts any bytes and derives peer id "A". -/
theorem handle_message_replay_drop_witness :
    0 < (1 : Nat) ∧
    (0 : Int) - msgTimestamp (.KeyAnnouncement "A" [1] 0) ≤ ((1 : Nat) : Int) * 3600 ∧
    handle_message ⟨some, id, fun _ => "A"⟩ ⟨true, true, false, 1⟩ "L" []
        (handle_message ⟨some, id, fun _ => "A"⟩ ⟨true, true, false, 1⟩ "L" []
          ⟨⟨[⟨"A", none, none, 0, none, [], 0⟩], ["A"]⟩, [], []⟩
          (.KeyAnnouncement "A" [1] 0) [9] "A" 0).1
        (.KeyAnnouncement "A" [1] 0) [9] "A" 1
      = ((handle_message ⟨some, id, fun _ => "A"⟩ ⟨true, true, false, 1⟩ "L" []
          ⟨⟨[⟨"A", none, none, 0, none, [], 0⟩], ["A"]⟩, [], []⟩
          (.KeyAnnouncement "A" [1] 0) [9] "A" 0).1, .ok none) :=
  ⟨by decide, by decide,
    handle_message_replay_drop ⟨some, id, fun _ => "A"⟩ ⟨true, true, false, 1⟩
      "L" [] ⟨⟨[⟨"A", none, none, 0, none, [], 0⟩], ["A"]⟩, [], []⟩
      (.KeyAnnouncement "A" [1] 0) [9] "A" 0 1 (by decide) (by decide)⟩

end P2P
